import Mathlib

/-!
Verification development for the 1-shot LLM agent pipeline
(src/agents/oneshot/oneshot_agent.py).

The Python source is shallowly embedded: text is `List Char`, and the
fixed regular expressions used by the source are embedded as executable
scanning functions with Python `re` semantics (MULTILINE anchors, DOTALL
dot, greedy and non-greedy quantifiers) specialised to the concrete
patterns appearing in the source.  The pipeline coordinator
`generate_and_run_scripts` is embedded as a pure function from the LLM
response text and an oracle `World` of external-process outcomes
(return codes of conda create, train, inference, conda env remove, and
whether inference wrote its output file) to the function result plus the
trace of external commands invoked.
-/

abbrev Str := List Char

/-- isPySpace c: Python regex whitespace class for the ASCII range, the
characters matched by a backslash-s atom. -/
def isPySpace (c : Char) : Bool :=
  c = ' ' || c = '\t' || c = '\n' || c = '\r' || c = '\x0b' || c = '\x0c'

/-- findTriple s: locate the first occurrence of three consecutive
backticks in s; return the characters before it and the suffix after it.
This is the semantics of a non-greedy dot-star capture followed by the
literal closing fence, under DOTALL. -/
def findTriple : Str → Option (Str × Str)
  | [] => none
  | c :: cs =>
    if "```".data.isPrefixOf (c :: cs) then some ([], (c :: cs).drop 3)
    else
      match findTriple cs with
      | some (cap, k) => some (c :: cap, k)
      | none => none

/-- headIsWs s: the first character of s exists and is regex whitespace. -/
def headIsWs : Str → Bool
  | [] => false
  | c :: _ => isPySpace c

/-- pyHeaderLen s: when s begins a match of the opening fence
"```python" followed by at least one whitespace character, the length of
the literal header, otherwise none. -/
def pyHeaderLen (s : Str) : Option Nat :=
  if "```python".data.isPrefixOf s && headIsWs (s.drop 9) then some 9 else none

/-- yamlHeaderLen s: when s begins a match of the opening fence
"```yaml" or "```yml" followed by at least one whitespace character
(the alternation of the source pattern), the length of the matched
literal header, otherwise none. -/
def yamlHeaderLen (s : Str) : Option Nat :=
  if "```yaml".data.isPrefixOf s && headIsWs (s.drop 7) then some 7
  else if "```yml".data.isPrefixOf s && headIsWs (s.drop 6) then some 6
  else none

/-- findallGo hl fuel s: Python re.findall over s for the pattern
"header, one-or-more whitespace (greedy), non-greedy captured dot-star,
closing fence", where hl recognises the header.  Leftmost
non-overlapping matches; scanning resumes after each full match.  The
fuel argument is initialised to the length of the text, which bounds the
number of scanning steps since every step strictly consumes input. -/
def findallGo (hl : Str → Option Nat) : Nat → Str → List Str
  | 0, _ => []
  | _ + 1, [] => []
  | fuel + 1, c :: cs =>
    match hl (c :: cs) with
    | some n =>
      match findTriple (List.dropWhile isPySpace ((c :: cs).drop n)) with
      | some (cap, k) => cap :: findallGo hl fuel k
      | none => findallGo hl fuel cs
    | none => findallGo hl fuel cs

/-- pyFindall s: the captures of the source pattern matching fenced
python blocks, in source order (oneshot_agent.py line 39). -/
def pyFindall (s : Str) : List Str :=
  findallGo pyHeaderLen s.length s

/-- yamlFindall s: the captures of the source pattern matching fenced
yaml blocks, in source order (oneshot_agent.py line 45). -/
def yamlFindall (s : Str) : List Str :=
  findallGo yamlHeaderLen s.length s

/-- extract_scripts response_text: embedding of extract_scripts
(oneshot_agent.py lines 37 to 50).  Exactly two python blocks and
exactly one yaml block are required; the python count is checked first,
as in the source, and a count mismatch raises ValueError, embedded as
Except.error with the source message. -/
def extract_scripts (response_text : Str) :
    Except String (Str × Str × Str) :=
  match pyFindall response_text with
  | [train_script, inference_script] =>
    match yamlFindall response_text with
    | [env_yaml] => Except.ok (train_script, inference_script, env_yaml)
    | _ => Except.error "Expected one YAML code block in the response"
  | _ => Except.error "Expected two Python code blocks in the response"

/-- nameLine l: the line l begins a match of the MULTILINE-anchored
pattern consisting of the literal name-colon, i.e. l starts with the
five characters of "name:". -/
def nameLine (l : Str) : Bool :=
  "name:".data.isPrefixOf l

/-- nameRepl env: the replacement text written by the source for a name
declaration line, the literal "name: " followed by the environment
name. -/
def nameRepl (env : Str) : Str :=
  "name: ".data ++ env

/-- tailStarts s: the suffixes of s that begin immediately after a
newline character; together with s itself these are the positions where
a MULTILINE caret can match. -/
def tailStarts : Str → List Str
  | [] => []
  | c :: cs => if c = '\n' then cs :: tailStarts cs else tailStarts cs

/-- lineStarts s: all suffixes of s at which a MULTILINE caret matches:
the whole text and every suffix following a newline. -/
def lineStarts (s : Str) : List Str :=
  s :: tailStarts s

/-- wsThenEol s: s begins a match of zero-or-more whitespace followed by
a MULTILINE dollar, i.e. some prefix of the leading whitespace run ends
at the end of the text or just before a newline. -/
def wsThenEol : Str → Bool
  | [] => true
  | c :: cs => c = '\n' || (isPySpace c && wsThenEol cs)

/-- matchTail env s: s begins a match of zero-or-more whitespace, then
the literal environment name env, then zero-or-more whitespace and a
MULTILINE dollar.  Backtracking over the whitespace split is modelled by
the disjunction. -/
def matchTail (env : Str) : Str → Bool
  | [] => env.isPrefixOf ([] : Str) && wsThenEol []
  | c :: cs =>
    (env.isPrefixOf (c :: cs) && wsThenEol ((c :: cs).drop env.length))
      || (isPySpace c && matchTail env cs)

/-- matchExactAt env s: s begins a match of the full source pattern
checking that a line already declares exactly the name env
(oneshot_agent.py line 61): the literal name-colon, optional whitespace,
env, optional trailing whitespace, end of line. -/
def matchExactAt (env : Str) (s : Str) : Bool :=
  "name:".data.isPrefixOf s && matchTail env (s.drop 5)

/-- searchNameExact env s: the MULTILINE re.search of the exact-name
pattern over s, true when some line start begins a match. -/
def searchNameExact (env : Str) (s : Str) : Bool :=
  (lineStarts s).any (matchExactAt env)

/-- searchNameAny s: the MULTILINE re.search for a line starting with
the literal name-colon (oneshot_agent.py line 65). -/
def searchNameAny (s : Str) : Bool :=
  (lineStarts s).any nameLine

/-- splitNl s: the lines of s, splitting at every newline; always
nonempty, and no line contains a newline. -/
def splitNl : Str → List Str
  | [] => [[]]
  | c :: cs =>
    if c = '\n' then [] :: splitNl cs
    else
      match splitNl cs with
      | [] => [[c]]
      | l :: ls => (c :: l) :: ls

/-- joinNl ls: the inverse of splitNl, joining lines with newlines. -/
def joinNl : List Str → Str
  | [] => []
  | [l] => l
  | l :: ls => l ++ '\n' :: joinNl ls

/-- substLine env l: the effect of the MULTILINE re.sub of
oneshot_agent.py line 63 on a single line: a line starting with the
literal name-colon is wholly replaced (dot matches to the end of the
line), any other line is kept. -/
def substLine (env : Str) (l : Str) : Str :=
  if nameLine l then nameRepl env else l

/-- subNameLines env s: embedding of the MULTILINE re.sub on
oneshot_agent.py line 63.  The pattern matches a whole line starting
with the literal name-colon (dot does not cross newlines and the
anchors are line boundaries), so every such line is replaced by the
replacement text nameRepl env. -/
def subNameLines (env : Str) (s : Str) : Str :=
  joinNl ((splitNl s).map (substLine env))

/-- rewrite_env_yaml run_name env_yaml: embedding of the environment
name rewrite inside save_scripts (oneshot_agent.py lines 59 to 66).
If no line already declares exactly run_name followed by _env, every
name declaration line is replaced, and if the result still has no name
declaration line one is prepended.  The environment name is matched
literally, as it is for the run name "oneshot" used by the program. -/
def rewrite_env_yaml (run_name : Str) (env_yaml : Str) : Str :=
  let env_name := run_name ++ "_env".data
  if searchNameExact env_name env_yaml then env_yaml
  else
    let y := subNameLines env_name env_yaml
    if searchNameAny y then y
    else nameRepl env_name ++ '\n' :: y

/-- name_decl_count s: the number of name declaration lines of s, the
observable of the materializer naming invariant. -/
def name_decl_count (s : Str) : Nat :=
  ((splitNl s).filter nameLine).length

/-- run_script_cmd script_path script_type output_path run_name
test_csv_no_labels_path: embedding of the command construction in
run_script (oneshot_agent.py lines 77 to 85).  The two separate if
statements of the source assign cmd for the script types "inference"
and "train"; for any other script type cmd is never assigned and the
function raises NameError before any subprocess is executed, embedded
as none. -/
def run_script_cmd (script_path : String) (script_type : String)
    (output_path : String) (run_name : String)
    (test_csv_no_labels_path : String) : Option String :=
  if script_type = "inference" then
    some ("source activate " ++ run_name ++ "_env && python " ++ script_path
      ++ " --input " ++ test_csv_no_labels_path
      ++ " --output " ++ output_path)
  else if script_type = "train" then
    some ("source activate " ++ run_name ++ "_env && python " ++ script_path)
  else none

/-- Event: an external command invocation performed by the pipeline. -/
inductive Event where
  | create
  | train
  | infer
  | destroy
deriving DecidableEq

/-- RunResult: how generate_and_run_scripts terminates: a normal return
with an integer code, or an uncaught exception propagating out of the
function. -/
inductive RunResult where
  | ret (code : Nat)
  | exn
deriving DecidableEq

/-- World: the oracle of external-process outcomes for one run: the
return code and stderr of conda env create, the return codes of the
train and inference scripts and of conda env remove, and whether the
inference script wrote the declared output file (an effect the source
never inspects). -/
structure World where
  createRc : Int
  createStderr : String
  trainRc : Int
  inferRc : Int
  inferWritesOutput : Bool
  destroyRc : Int

/-- PipeOut: the observable outcome of one pipeline run: the function
result, the trace of external commands invoked in order, and the
diagnostic message printed when environment creation fails. -/
structure PipeOut where
  result : RunResult
  events : List Event
  createErrMsg : Option String
deriving DecidableEq

/-- delete_conda_env w k: embedding of delete_conda_env
(oneshot_agent.py lines 90 to 93).  The subprocess runs with check set,
so a non-zero return code of conda env remove raises CalledProcessError
instead of reaching the continuation result k. -/
def delete_conda_env (w : World) (k : RunResult) : RunResult :=
  if w.destroyRc = 0 then k else RunResult.exn

/-- generate_and_run_scripts response_content w: embedding of the
pipeline coordinator (oneshot_agent.py lines 95 to 220) from the point
where the LLM response text is in hand.  Extraction failure returns 1
with no command run; creation failure prints the diagnostic and returns
1 with no cleanup; a non-zero train or inference return code triggers
delete_conda_env then return 1; on success delete_conda_env runs and 0
is returned. -/
def generate_and_run_scripts (response_content : Str) (w : World) : PipeOut :=
  match extract_scripts response_content with
  | Except.error _ => ⟨RunResult.ret 1, [], none⟩
  | Except.ok _ =>
    if w.createRc ≠ 0 then
      ⟨RunResult.ret 1, [Event.create], some w.createStderr⟩
    else if w.trainRc ≠ 0 then
      ⟨delete_conda_env w (RunResult.ret 1),
        [Event.create, Event.train, Event.destroy], none⟩
    else if w.inferRc ≠ 0 then
      ⟨delete_conda_env w (RunResult.ret 1),
        [Event.create, Event.train, Event.infer, Event.destroy], none⟩
    else
      ⟨delete_conda_env w (RunResult.ret 0),
        [Event.create, Event.train, Event.infer, Event.destroy], none⟩

/-- env_exists_after w o: whether an environment named after the run
still exists once the pipeline has ended: it was created by a
successful create command and no successful remove command ran. -/
def env_exists_after (w : World) (o : PipeOut) : Bool :=
  (o.events.contains Event.create && w.createRc == 0)
    && !(o.events.contains Event.destroy && w.destroyRc == 0)

/-- submission_exists w o: whether the declared output file exists after
the run: the inference script was invoked and it wrote the file. -/
def submission_exists (w : World) (o : PipeOut) : Bool :=
  o.events.contains Event.infer && w.inferWritesOutput

/-- rGood: a well-formed LLM response with two python blocks and one
yaml block, used as a concrete run input. -/
def rGood : Str :=
  "```python\nA\n```\n```python\nB\n```\n```yaml\nC\n```".data

/-- vGood: the artifacts extracted from rGood. -/
def vGood : Str × Str × Str :=
  ("A\n".data, "B\n".data, "C\n".data)

/-- wOk: a world where every external command succeeds. -/
def wOk : World := ⟨0, "", 0, 0, true, 0⟩

/-- wDestroyFail: a world where everything succeeds except the final
conda env remove command. -/
def wDestroyFail : World := ⟨0, "", 0, 0, true, 1⟩

/-- wNoOutput: a world where every command exits 0 but the inference
script never writes the declared output file. -/
def wNoOutput : World := ⟨0, "", 0, 0, false, 0⟩

/-- wCreateFail: a world where conda env create exits 1 with a solver
diagnostic. -/
def wCreateFail : World := ⟨1, "solver failed", 0, 0, true, 0⟩

/-- wTrainFail: a world where the training script exits 1. -/
def wTrainFail : World := ⟨0, "", 1, 0, true, 0⟩

/-- C1 (amended): for every run that reaches Provisioned (extraction
succeeded and the create command returned 0), delete_conda_env is
invoked exactly once whatever the later step outcomes, and when the
destroy command itself succeeds no environment named after the run
exists afterwards. -/
theorem C1_destroy_exactly_once (resp : Str) (v : Str × Str × Str)
    (w : World) (hx : extract_scripts resp = Except.ok v)
    (hc : w.createRc = 0) :
    (generate_and_run_scripts resp w).events.count Event.destroy = 1 ∧
    (w.destroyRc = 0 →
      env_exists_after w (generate_and_run_scripts resp w) = false) := by
  unfold generate_and_run_scripts
  rw [hx]
  constructor
  · by_cases ht : w.trainRc = 0 <;> by_cases hi : w.inferRc = 0 <;>
      simp [hc, ht, hi]
  · intro hd
    by_cases ht : w.trainRc = 0 <;> by_cases hi : w.inferRc = 0 <;>
      simp [hc, ht, hi, hd, env_exists_after, delete_conda_env]

/-- C1 witness: in the all-successful world the destroy command runs
exactly once and the environment is gone afterwards. -/
theorem C1_destroy_exactly_once_witness :
    (generate_and_run_scripts rGood wOk).events.count Event.destroy = 1 ∧
    env_exists_after wOk (generate_and_run_scripts rGood wOk) = false := by
  have h := C1_destroy_exactly_once rGood vGood wOk (by rfl) (by decide)
  exact ⟨h.1, h.2 (by decide)⟩

/-- C1 counterexample: when the destroy command itself fails, it was
still invoked exactly once but the environment named after the run
still exists after the run ends, refuting the claim that no such
environment exists after every run that reached Provisioned. -/
theorem C1_counterexample :
    (generate_and_run_scripts rGood wDestroyFail).events.count
        Event.destroy = 1 ∧
    env_exists_after wDestroyFail
        (generate_and_run_scripts rGood wDestroyFail) = true := by
  decide

/-- C3 (amended): for every run that reached Trained, the transition to
success requires only that the inference command returns exit code 0:
on a non-zero exit the destroy command is invoked and the run does not
report success, while on exit 0 the run reports success whether or not
the declared output file was written; the result never depends on the
output file's existence. -/
theorem C3_infer_exit_code_only (resp : Str) (v : Str × Str × Str)
    (w : World) (hx : extract_scripts resp = Except.ok v)
    (hc : w.createRc = 0) (ht : w.trainRc = 0) :
    (w.inferRc ≠ 0 →
      (generate_and_run_scripts resp w).events =
        [Event.create, Event.train, Event.infer, Event.destroy] ∧
      (generate_and_run_scripts resp w).result ≠ RunResult.ret 0) ∧
    (w.inferRc = 0 → w.destroyRc = 0 →
      (generate_and_run_scripts resp w).result = RunResult.ret 0) ∧
    (∀ b, (generate_and_run_scripts resp
        { w with inferWritesOutput := b }).result =
      (generate_and_run_scripts resp w).result) := by
  unfold generate_and_run_scripts
  rw [hx]
  refine ⟨fun hi => ?_, fun hi hd => ?_, fun b => ?_⟩
  · by_cases hd : w.destroyRc = 0 <;>
      simp [hc, ht, hi, hd, delete_conda_env]
  · simp [hc, ht, hi, hd, delete_conda_env]
  · by_cases hi : w.inferRc = 0 <;>
      simp [hc, ht, hi, delete_conda_env]

/-- C3 witness: with both exit codes 0 and a successful destroy the run
reports success. -/
theorem C3_infer_exit_code_only_witness :
    (generate_and_run_scripts rGood wOk).result = RunResult.ret 0 := by
  have h := C3_infer_exit_code_only rGood vGood wOk (by rfl) (by decide)
    (by decide)
  exact h.2.1 (by decide) (by decide)

/-- C3 counterexample: a run whose inference command exits 0 without
writing the declared output file still reports success, refuting the
claim that a missing output file makes the run report Failed. -/
theorem C3_counterexample :
    (generate_and_run_scripts rGood wNoOutput).result = RunResult.ret 0 ∧
    submission_exists wNoOutput
        (generate_and_run_scripts rGood wNoOutput) = false := by
  decide

/-- C4 (amended): for every run whose training and inference both
succeeded, the pipeline reports success exactly when the destroy
command also succeeds: a destroy failure raises an uncaught
CalledProcessError out of the pipeline instead of preserving the
already-decided success. -/
theorem C4_destroy_failure_overrides (resp : Str) (v : Str × Str × Str)
    (w : World) (hx : extract_scripts resp = Except.ok v)
    (hc : w.createRc = 0) (ht : w.trainRc = 0) (hi : w.inferRc = 0) :
    (generate_and_run_scripts resp w).result =
      (if w.destroyRc = 0 then RunResult.ret 0 else RunResult.exn) := by
  unfold generate_and_run_scripts
  rw [hx]
  simp [hc, ht, hi, delete_conda_env]

/-- C4 witness: concrete successful run with a successful destroy. -/
theorem C4_destroy_failure_overrides_witness :
    (generate_and_run_scripts rGood wOk).result = RunResult.ret 0 := by
  have h := C4_destroy_failure_overrides rGood vGood wOk (by rfl)
    (by decide) (by decide) (by decide)
  simpa using h

/-- C4 counterexample: training and inference succeed but the destroy
command fails, and the pipeline terminates with an uncaught exception
rather than reporting the already-decided success. -/
theorem C4_counterexample :
    (generate_and_run_scripts rGood wDestroyFail).result = RunResult.exn ∧
    (generate_and_run_scripts rGood wDestroyFail).result ≠
      RunResult.ret 0 := by
  decide

/-- C7: when environment creation returns a non-zero status the run
returns 1 with the create diagnostic surfaced, only the create command
ever ran, and neither training nor destroy is invoked. -/
theorem C7_create_failure_terminal (resp : Str) (v : Str × Str × Str)
    (w : World) (hx : extract_scripts resp = Except.ok v)
    (hc : w.createRc ≠ 0) :
    (generate_and_run_scripts resp w).result = RunResult.ret 1 ∧
    (generate_and_run_scripts resp w).events = [Event.create] ∧
    (generate_and_run_scripts resp w).createErrMsg =
      some w.createStderr ∧
    Event.train ∉ (generate_and_run_scripts resp w).events ∧
    Event.destroy ∉ (generate_and_run_scripts resp w).events := by
  unfold generate_and_run_scripts
  rw [hx]
  simp [hc]

/-- C7 witness: the create-failure world surfaces the solver diagnostic
and runs nothing past create. -/
theorem C7_create_failure_terminal_witness :
    (generate_and_run_scripts rGood wCreateFail).events = [Event.create] ∧
    (generate_and_run_scripts rGood wCreateFail).createErrMsg =
      some "solver failed" := by
  have h := C7_create_failure_terminal rGood vGood wCreateFail (by rfl)
    (by decide)
  exact ⟨h.2.1, h.2.2.1⟩

/-- C8: when the training command exits non-zero, inference is never
invoked, destroy is invoked exactly once, and the run does not report
success. -/
theorem C8_train_failure_no_infer (resp : Str) (v : Str × Str × Str)
    (w : World) (hx : extract_scripts resp = Except.ok v)
    (hc : w.createRc = 0) (ht : w.trainRc ≠ 0) :
    Event.infer ∉ (generate_and_run_scripts resp w).events ∧
    (generate_and_run_scripts resp w).events.count Event.destroy = 1 ∧
    (generate_and_run_scripts resp w).result ≠ RunResult.ret 0 := by
  unfold generate_and_run_scripts
  rw [hx]
  by_cases hd : w.destroyRc = 0 <;> simp [hc, ht, hd, delete_conda_env]

/-- C8 witness: concrete run with a failing training script. -/
theorem C8_train_failure_no_infer_witness :
    Event.infer ∉ (generate_and_run_scripts rGood wTrainFail).events ∧
    (generate_and_run_scripts rGood wTrainFail).events.count
        Event.destroy = 1 := by
  have h := C8_train_failure_no_infer rGood vGood wTrainFail (by rfl)
    (by decide) (by decide)
  exact ⟨h.1, h.2.1⟩

/-- C9: the job runner command for a train invocation activates the
run-scoped environment and passes no positional input or output
arguments, and the command for an inference invocation activates the
same environment and passes the input path after a literal input flag
and the output path after a literal output flag. -/
theorem C9_run_script_commands (script_path output_path run_name
    test_path : String) :
    run_script_cmd script_path "train" output_path run_name test_path =
      some ("source activate " ++ run_name ++ "_env && python "
        ++ script_path) ∧
    run_script_cmd script_path "inference" output_path run_name
        test_path =
      some ("source activate " ++ run_name ++ "_env && python "
        ++ script_path ++ " --input " ++ test_path
        ++ " --output " ++ output_path) := by
  constructor <;> simp [run_script_cmd]

/-- C10: any script type other than the exact strings "train" and
"inference" leaves the command variable unassigned, so run_script
raises before any subprocess is executed; in particular the role string
"infer" is rejected. -/
theorem C10_unknown_script_type (script_path output_path run_name
    test_path script_type : String) (h1 : script_type ≠ "train")
    (h2 : script_type ≠ "inference") :
    run_script_cmd script_path script_type output_path run_name
      test_path = none := by
  simp [run_script_cmd, h1, h2]

/-- C10 witness: the role string "infer" produces no command. -/
theorem C10_unknown_script_type_witness :
    run_script_cmd "inference.py" "infer" "sub.csv" "oneshot"
      "test.csv" = none :=
  C10_unknown_script_type "inference.py" "sub.csv" "oneshot" "test.csv"
    "infer" (by decide) (by decide)

/-- C2: extraction succeeds exactly when the response text contains
exactly two python-tagged fenced blocks and exactly one yaml-tagged
fenced block, and on success the artifacts are the blocks in source
order, the first python block as the training script and the second as
the inference script; any other count fails with the malformed-response
error. -/
theorem C2_extract_contract (rt : Str) :
    ((∃ v, extract_scripts rt = Except.ok v) ↔
      ((pyFindall rt).length = 2 ∧ (yamlFindall rt).length = 1)) ∧
    (∀ t i y, pyFindall rt = [t, i] → yamlFindall rt = [y] →
      extract_scripts rt = Except.ok (t, i, y)) := by
  rcases hp : pyFindall rt with _ | ⟨a, _ | ⟨b, _ | ⟨c, l⟩⟩⟩
  · simp [extract_scripts, hp]
  · simp [extract_scripts, hp]
  · rcases hy : yamlFindall rt with _ | ⟨y1, _ | ⟨y2, l2⟩⟩
    · simp [extract_scripts, hp, hy]
    · simp [extract_scripts, hp, hy]
    · simp [extract_scripts, hp, hy]
  · simp [extract_scripts, hp]

/-- C2 witness: on a concrete response with two python blocks and one
yaml block, extraction returns them in source order. -/
theorem C2_extract_contract_witness :
    extract_scripts rGood = Except.ok ("A\n".data, "B\n".data,
      "C\n".data) :=
  (C2_extract_contract rGood).2 "A\n".data "B\n".data "C\n".data
    (by rfl) (by rfl)

theorem splitNl_ne_nil : ∀ s : Str, splitNl s ≠ []
  | [] => by simp [splitNl]
  | c :: cs => by
    by_cases h : c = '\n'
    · simp [splitNl, h]
    · simp only [splitNl, h, if_false]
      cases hs : splitNl cs <;> simp

theorem mem_splitNl_no_nl : ∀ s : Str, ∀ l ∈ splitNl s, '\n' ∉ l := by
  intro s
  induction s with
  | nil =>
    intro l hl
    simp [splitNl] at hl
    simp [hl]
  | cons c cs ih =>
    intro l hl
    by_cases h : c = '\n'
    · rw [show splitNl (c :: cs) = [] :: splitNl cs by simp [splitNl, h]] at hl
      rcases List.mem_cons.mp hl with rfl | hl
      · simp
      · exact ih l hl
    · rcases hs : splitNl cs with _ | ⟨l0, ls0⟩
      · exact absurd hs (splitNl_ne_nil cs)
      · rw [show splitNl (c :: cs) = (c :: l0) :: ls0 by
          simp [splitNl, h, hs]] at hl
        rcases List.mem_cons.mp hl with rfl | hl
        · intro hmem
          rcases List.mem_cons.mp hmem with heq | hmem
          · exact h heq.symm
          · exact ih l0 (hs ▸ List.mem_cons_self l0 ls0) hmem
        · exact ih l (hs ▸ List.mem_cons_of_mem l0 hl)

theorem joinNl_cons_cons (c : Char) (l : Str) (ls : List Str) :
    joinNl ((c :: l) :: ls) = c :: joinNl (l :: ls) := by
  cases ls <;> simp [joinNl]

theorem joinNl_cons_ne (l : Str) (ls : List Str) (h : ls ≠ []) :
    joinNl (l :: ls) = l ++ '\n' :: joinNl ls := by
  cases ls with
  | nil => exact absurd rfl h
  | cons x xs => simp [joinNl]

theorem joinNl_splitNl : ∀ s : Str, joinNl (splitNl s) = s := by
  intro s
  induction s with
  | nil => simp [splitNl, joinNl]
  | cons c cs ih =>
    by_cases h : c = '\n'
    · rw [show splitNl (c :: cs) = [] :: splitNl cs by simp [splitNl, h]]
      rw [joinNl_cons_ne [] (splitNl cs) (splitNl_ne_nil cs)]
      simp [ih, h]
    · rcases hs : splitNl cs with _ | ⟨l0, ls0⟩
      · exact absurd hs (splitNl_ne_nil cs)
      · rw [show splitNl (c :: cs) = (c :: l0) :: ls0 by
          simp [splitNl, h, hs]]
        rw [joinNl_cons_cons, ← hs, ih]

theorem splitNl_of_no_nl : ∀ l : Str, '\n' ∉ l → splitNl l = [l] := by
  intro l
  induction l with
  | nil => intro _; simp [splitNl]
  | cons c cs ih =>
    intro h
    have hc : c ≠ '\n' := fun hc => h (hc ▸ List.mem_cons_self c cs)
    have hcs : '\n' ∉ cs := fun hm => h (List.mem_cons_of_mem c hm)
    simp [splitNl, hc, ih hcs]

theorem splitNl_append_nl : ∀ (a b : Str), '\n' ∉ a →
    splitNl (a ++ '\n' :: b) = a :: splitNl b := by
  intro a
  induction a with
  | nil => intro b _; simp [splitNl]
  | cons c cs ih =>
    intro b h
    have hc : c ≠ '\n' := fun hc => h (hc ▸ List.mem_cons_self c cs)
    have hcs : '\n' ∉ cs := fun hm => h (List.mem_cons_of_mem c hm)
    simp [splitNl, hc, ih b hcs]

theorem splitNl_joinNl : ∀ ls : List Str, ls ≠ [] →
    (∀ l ∈ ls, '\n' ∉ l) → splitNl (joinNl ls) = ls := by
  intro ls
  induction ls with
  | nil => intro h; exact absurd rfl h
  | cons l ls ih =>
    intro _ hno
    cases ls with
    | nil =>
      simp [joinNl]
      exact splitNl_of_no_nl l (hno l (List.mem_cons_self l []))
    | cons x xs =>
      rw [joinNl_cons_ne l (x :: xs) (by simp)]
      rw [splitNl_append_nl l (joinNl (x :: xs))
        (hno l (List.mem_cons_self l (x :: xs)))]
      rw [ih (by simp) (fun y hy => hno y (List.mem_cons_of_mem l hy))]

theorem tailStarts_append : ∀ (a b : Str), '\n' ∉ a →
    tailStarts (a ++ b) = tailStarts b := by
  intro a
  induction a with
  | nil => intro b _; simp
  | cons c cs ih =>
    intro b h
    have hc : c ≠ '\n' := fun hc => h (hc ▸ List.mem_cons_self c cs)
    have hcs : '\n' ∉ cs := fun hm => h (List.mem_cons_of_mem c hm)
    simp [tailStarts, hc, ih b hcs]

theorem isPrefixOf_self_append : ∀ (a b : Str),
    a.isPrefixOf (a ++ b) = true := by
  intro a b
  induction a with
  | nil => simp [List.isPrefixOf]
  | cons c cs ih => simp [List.isPrefixOf, ih]

theorem matchTail_here (env s : Str) (h1 : env.isPrefixOf s = true)
    (h2 : wsThenEol (s.drop env.length) = true) :
    matchTail env s = true := by
  cases s with
  | nil => simp [matchTail, wsThenEol, h1]
  | cons c cs => simp [matchTail, h1, h2]

theorem nameRepl_eq (env : Str) :
    nameRepl env = 'n' :: 'a' :: 'm' :: 'e' :: ':' :: ' ' :: env := rfl

theorem matchExact_nameRepl (env t : Str)
    (h : t = [] ∨ ∃ r, t = '\n' :: r) :
    matchExactAt env (nameRepl env ++ t) = true := by
  have hdrop : (nameRepl env ++ t).drop 5 = ' ' :: (env ++ t) := by
    simp [nameRepl_eq]
  have hws : wsThenEol t = true := by
    rcases h with rfl | ⟨r, rfl⟩ <;> simp [wsThenEol]
  have htail : matchTail env (' ' :: (env ++ t)) = true := by
    rw [matchTail]
    have hhere : matchTail env (env ++ t) = true := by
      apply matchTail_here
      · exact isPrefixOf_self_append env t
      · rw [List.drop_left]
        exact hws
    simp [isPySpace, hhere]
  rw [matchExactAt, hdrop, htail]
  simp [nameRepl_eq, List.isPrefixOf]

theorem nameLine_nameRepl_append (env t : Str) :
    nameLine (nameRepl env ++ t) = true := by
  simp [nameLine, nameRepl_eq, List.isPrefixOf]

theorem nameLine_nameRepl (env : Str) : nameLine (nameRepl env) = true := by
  have := nameLine_nameRepl_append env []
  simpa using this

theorem searchNameExact_join (env : Str) : ∀ (ls1 ls2 : List Str),
    (∀ l ∈ ls1, '\n' ∉ l) →
    searchNameExact env (joinNl (ls1 ++ nameRepl env :: ls2)) = true := by
  intro ls1
  induction ls1 with
  | nil =>
    intro ls2 _
    cases ls2 with
    | nil =>
      have := matchExact_nameRepl env [] (Or.inl rfl)
      simp only [List.nil_append, joinNl]
      simp [searchNameExact, lineStarts, List.any_cons]
      left
      simpa using this
    | cons x xs =>
      rw [List.nil_append,
        joinNl_cons_ne (nameRepl env) (x :: xs) (by simp)]
      have := matchExact_nameRepl env ('\n' :: joinNl (x :: xs))
        (Or.inr ⟨joinNl (x :: xs), rfl⟩)
      simp [searchNameExact, lineStarts, List.any_cons, this]
  | cons l ls1 ih =>
    intro ls2 hno
    have hl : '\n' ∉ l := hno l (List.mem_cons_self l ls1)
    have hrest : ∀ x ∈ ls1, '\n' ∉ x :=
      fun x hx => hno x (List.mem_cons_of_mem l hx)
    rw [List.cons_append,
      joinNl_cons_ne l (ls1 ++ nameRepl env :: ls2) (by simp)]
    have hih := ih ls2 hrest
    simp only [searchNameExact, lineStarts, List.any_cons] at hih ⊢
    rw [tailStarts_append l ('\n' :: joinNl (ls1 ++ nameRepl env :: ls2)) hl]
    rw [show tailStarts ('\n' :: joinNl (ls1 ++ nameRepl env :: ls2)) =
      joinNl (ls1 ++ nameRepl env :: ls2) ::
        tailStarts (joinNl (ls1 ++ nameRepl env :: ls2)) by
      simp [tailStarts]]
    simp only [List.any_cons] at hih ⊢
    rcases Bool.or_eq_true_iff.mp hih with h | h
    · simp [h]
    · simp [h]

theorem searchNameAny_join (env : Str) : ∀ (ls1 ls2 : List Str),
    (∀ l ∈ ls1, '\n' ∉ l) →
    searchNameAny (joinNl (ls1 ++ nameRepl env :: ls2)) = true := by
  intro ls1
  induction ls1 with
  | nil =>
    intro ls2 _
    cases ls2 with
    | nil =>
      simp only [List.nil_append, joinNl]
      simp [searchNameAny, lineStarts, List.any_cons, nameLine_nameRepl]
    | cons x xs =>
      rw [List.nil_append,
        joinNl_cons_ne (nameRepl env) (x :: xs) (by simp)]
      simp [searchNameAny, lineStarts, List.any_cons,
        nameLine_nameRepl_append]
  | cons l ls1 ih =>
    intro ls2 hno
    have hl : '\n' ∉ l := hno l (List.mem_cons_self l ls1)
    have hrest : ∀ x ∈ ls1, '\n' ∉ x :=
      fun x hx => hno x (List.mem_cons_of_mem l hx)
    rw [List.cons_append,
      joinNl_cons_ne l (ls1 ++ nameRepl env :: ls2) (by simp)]
    have hih := ih ls2 hrest
    simp only [searchNameAny, lineStarts, List.any_cons] at hih ⊢
    rw [tailStarts_append l ('\n' :: joinNl (ls1 ++ nameRepl env :: ls2)) hl]
    rw [show tailStarts ('\n' :: joinNl (ls1 ++ nameRepl env :: ls2)) =
      joinNl (ls1 ++ nameRepl env :: ls2) ::
        tailStarts (joinNl (ls1 ++ nameRepl env :: ls2)) by
      simp [tailStarts]]
    simp only [List.any_cons] at hih ⊢
    rcases Bool.or_eq_true_iff.mp hih with h | h
    · simp [h]
    · simp [h]

theorem splitHead_mem (s : Str) : (splitNl s).headI ∈ splitNl s := by
  rcases hs : splitNl s with _ | ⟨l, ls⟩
  · exact absurd hs (splitNl_ne_nil s)
  · simp

theorem isPrefixOf_splitHead : ∀ (p s : Str), '\n' ∉ p →
    p.isPrefixOf s = true → p.isPrefixOf (splitNl s).headI = true := by
  intro p
  induction p with
  | nil => intro s _ _; simp [List.isPrefixOf]
  | cons a p ih =>
    intro s hno hp
    cases s with
    | nil => simp [List.isPrefixOf] at hp
    | cons b s =>
      simp only [List.isPrefixOf, Bool.and_eq_true, beq_iff_eq] at hp
      obtain ⟨rfl, hp⟩ := hp
      have ha : a ≠ '\n' := fun h => hno (h ▸ List.mem_cons_self a p)
      have hnp : '\n' ∉ p := fun h => hno (List.mem_cons_of_mem a h)
      rcases hs : splitNl s with _ | ⟨l0, ls0⟩
      · exact absurd hs (splitNl_ne_nil s)
      · rw [show splitNl (a :: s) = (a :: l0) :: ls0 by
          simp [splitNl, ha, hs]]
        have := ih s hnp hp
        rw [hs] at this
        simp only [List.headI] at this ⊢
        simp [List.isPrefixOf, this]

theorem any_of_tail_any {p : Str → Bool} : ∀ (l : List Str),
    l.tail.any p = true → l.any p = true := by
  intro l h
  cases l with
  | nil => simp at h
  | cons x xs => simp only [List.tail_cons] at h; simp [List.any_cons, h]

theorem splitNl_tail_cons (c : Char) (cs : Str) (h : c ≠ '\n') :
    (splitNl (c :: cs)).tail = (splitNl cs).tail := by
  rcases hs : splitNl cs with _ | ⟨l0, ls0⟩
  · exact absurd hs (splitNl_ne_nil cs)
  · rw [show splitNl (c :: cs) = (c :: l0) :: ls0 by simp [splitNl, h, hs]]
    simp

theorem tailStarts_any_imp : ∀ s : Str,
    (tailStarts s).any nameLine = true →
    ((splitNl s).tail).any nameLine = true := by
  intro s
  induction s with
  | nil => intro h; simp [tailStarts] at h
  | cons c cs ih =>
    intro h
    by_cases hc : c = '\n'
    · rw [show tailStarts (c :: cs) = cs :: tailStarts cs by
        simp [tailStarts, hc]] at h
      rw [show (splitNl (c :: cs)).tail = splitNl cs by
        simp [splitNl, hc]]
      rw [List.any_cons] at h
      rcases Bool.or_eq_true_iff.mp h with h1 | h1
      · have hh := isPrefixOf_splitHead "name:".data cs (by decide) h1
        exact List.any_eq_true.mpr ⟨(splitNl cs).headI, splitHead_mem cs,
          hh⟩
      · exact any_of_tail_any (splitNl cs) (ih h1)
    · rw [show tailStarts (c :: cs) = tailStarts cs by
        simp [tailStarts, hc]] at h
      rw [splitNl_tail_cons c cs hc]
      exact ih h

theorem searchNameAny_imp_any (s : Str) (h : searchNameAny s = true) :
    (splitNl s).any nameLine = true := by
  simp only [searchNameAny, lineStarts, List.any_cons] at h
  rcases Bool.or_eq_true_iff.mp h with h1 | h1
  · have hh := isPrefixOf_splitHead "name:".data s (by decide) h1
    exact List.any_eq_true.mpr ⟨(splitNl s).headI, splitHead_mem s, hh⟩
  · exact any_of_tail_any (splitNl s) (tailStarts_any_imp s h1)

theorem searchNameExact_imp_searchAny (env s : Str)
    (h : searchNameExact env s = true) : searchNameAny s = true := by
  simp only [searchNameExact, List.any_eq_true] at h
  obtain ⟨t, ht, hm⟩ := h
  simp only [matchExactAt, Bool.and_eq_true] at hm
  exact List.any_eq_true.mpr ⟨t, ht, hm.1⟩

theorem exists_first_nameLine : ∀ ls : List Str,
    ls.any nameLine = true →
    ∃ ls1 l ls2, ls = ls1 ++ l :: ls2 ∧ nameLine l = true ∧
      ∀ x ∈ ls1, nameLine x = false := by
  intro ls
  induction ls with
  | nil => intro h; simp at h
  | cons x xs ih =>
    intro h
    by_cases hx : nameLine x = true
    · exact ⟨[], x, xs, by simp, hx, by simp⟩
    · have hxs : xs.any nameLine = true := by
        rw [List.any_cons] at h
        rcases Bool.or_eq_true_iff.mp h with h1 | h1
        · exact absurd h1 hx
        · exact h1
      obtain ⟨ls1, l, ls2, heq, hl, hfst⟩ := ih hxs
      refine ⟨x :: ls1, l, ls2, by simp [heq], hl, ?_⟩
      intro y hy
      rcases List.mem_cons.mp hy with rfl | hy
      · exact Bool.eq_false_iff.mpr hx
      · exact hfst y hy

theorem count_substLine (env : Str) : ∀ ls : List Str,
    ((ls.map (substLine env)).filter nameLine).length =
      (ls.filter nameLine).length := by
  intro ls
  induction ls with
  | nil => simp
  | cons x xs ih =>
    by_cases hx : nameLine x = true
    · simp [substLine, hx, nameLine_nameRepl, ih]
    · simp [substLine, hx, Bool.eq_false_iff.mpr hx, ih]

theorem no_nl_nameRepl (env : Str) (henv : '\n' ∉ env) :
    '\n' ∉ nameRepl env := by
  rw [nameRepl_eq]
  intro h
  rcases List.mem_cons.mp h with h | h
  · exact absurd h.symm (by decide)
  rcases List.mem_cons.mp h with h | h
  · exact absurd h.symm (by decide)
  rcases List.mem_cons.mp h with h | h
  · exact absurd h.symm (by decide)
  rcases List.mem_cons.mp h with h | h
  · exact absurd h.symm (by decide)
  rcases List.mem_cons.mp h with h | h
  · exact absurd h.symm (by decide)
  rcases List.mem_cons.mp h with h | h
  · exact absurd h.symm (by decide)
  · exact henv h

theorem substLine_no_nl (env : Str) (henv : '\n' ∉ env) (l : Str)
    (hl : '\n' ∉ l) : '\n' ∉ substLine env l := by
  by_cases h : nameLine l = true
  · simp only [substLine, h, if_pos rfl]
    simpa [h] using no_nl_nameRepl env henv
  · simpa [substLine, h] using hl

theorem map_substLine_id (env : Str) : ∀ ls : List Str,
    (∀ l ∈ ls, nameLine l = false) → ls.map (substLine env) = ls := by
  intro ls
  induction ls with
  | nil => intro _; simp
  | cons x xs ih =>
    intro h
    have hx := h x (List.mem_cons_self x xs)
    have hxs := fun y hy => h y (List.mem_cons_of_mem x hy)
    simp [substLine, hx, ih hxs]

theorem subNameLines_id (env s : Str)
    (h : (splitNl s).any nameLine = false) : subNameLines env s = s := by
  rw [subNameLines, map_substLine_id env (splitNl s) ?_, joinNl_splitNl]
  intro l hl
  by_cases hx : nameLine l = true
  · rw [List.any_eq_true.mpr ⟨l, hl, hx⟩] at h
    exact absurd h (by simp)
  · exact Bool.eq_false_iff.mpr hx

theorem subNameLines_map_decomp (env s : Str)
    (h : (splitNl s).any nameLine = true) :
    ∃ ls1 ls2, (∀ l ∈ ls1, '\n' ∉ l) ∧
      (splitNl s).map (substLine env) = ls1 ++ nameRepl env :: ls2 := by
  obtain ⟨ls1, l, ls2, heq, hl, hfst⟩ := exists_first_nameLine _ h
  refine ⟨ls1, ls2.map (substLine env), ?_, ?_⟩
  · intro x hx
    exact mem_splitNl_no_nl s x (heq ▸ List.mem_append_left _ hx)
  · rw [heq, List.map_append, List.map_cons,
      map_substLine_id env ls1 hfst,
      show substLine env l = nameRepl env by simp [substLine, hl]]

theorem rewrite_env_yaml_cases (run_name s : Str) :
    (searchNameExact (run_name ++ "_env".data) s = true ∧
      rewrite_env_yaml run_name s = s) ∨
    (searchNameExact (run_name ++ "_env".data) s = false ∧
      ((searchNameAny (subNameLines (run_name ++ "_env".data) s) = true ∧
        rewrite_env_yaml run_name s =
          subNameLines (run_name ++ "_env".data) s) ∨
       (searchNameAny (subNameLines (run_name ++ "_env".data) s) = false ∧
        rewrite_env_yaml run_name s =
          nameRepl (run_name ++ "_env".data) ++ '\n' ::
            subNameLines (run_name ++ "_env".data) s))) := by
  by_cases h1 : searchNameExact (run_name ++ "_env".data) s = true
  · exact Or.inl ⟨h1, by simp [rewrite_env_yaml, h1]⟩
  · have h1' : searchNameExact (run_name ++ "_env".data) s = false :=
      Bool.eq_false_iff.mpr h1
    by_cases h2 : searchNameAny (subNameLines (run_name ++ "_env".data) s)
      = true
    · exact Or.inr ⟨h1', Or.inl ⟨h2, by simp [rewrite_env_yaml, h1', h2]⟩⟩
    · have h2' : searchNameAny (subNameLines (run_name ++ "_env".data) s)
        = false := Bool.eq_false_iff.mpr h2
      exact Or.inr ⟨h1', Or.inr ⟨h2',
        by simp [rewrite_env_yaml, h1', h2']⟩⟩

theorem rewrite_env_yaml_of_searchExact (run_name t : Str)
    (h : searchNameExact (run_name ++ "_env".data) t = true) :
    rewrite_env_yaml run_name t = t := by
  simp [rewrite_env_yaml, h]

theorem rewrite_env_yaml_fix (run_name s : Str) :
    searchNameExact (run_name ++ "_env".data)
      (rewrite_env_yaml run_name s) = true ∨
    rewrite_env_yaml run_name s = s := by
  rcases rewrite_env_yaml_cases run_name s with ⟨_, hrw⟩ | ⟨_, h⟩
  · exact Or.inr hrw
  · left
    rcases h with ⟨h2, hrw⟩ | ⟨h2, hrw⟩
    · rw [hrw]
      have hany : (splitNl s).any nameLine = true := by
        by_cases hno : (splitNl s).any nameLine = true
        · exact hno
        · have hid := subNameLines_id (run_name ++ "_env".data) s
            (Bool.eq_false_iff.mpr hno)
          rw [hid] at h2
          exact absurd (searchNameAny_imp_any s h2) hno
      obtain ⟨ls1, ls2, hnonl, hmap⟩ :=
        subNameLines_map_decomp (run_name ++ "_env".data) s hany
      rw [subNameLines, hmap]
      exact searchNameExact_join (run_name ++ "_env".data) ls1 ls2 hnonl
    · rw [hrw]
      have hm := matchExact_nameRepl (run_name ++ "_env".data)
        ('\n' :: subNameLines (run_name ++ "_env".data) s)
        (Or.inr ⟨subNameLines (run_name ++ "_env".data) s, rfl⟩)
      simp [searchNameExact, lineStarts, List.any_cons, hm]

/-- C6: the environment-name rewrite performed by save_scripts is
idempotent: applying it twice to any environment spec text yields the
same text as applying it once. -/
theorem C6_rewrite_idempotent (run_name s : Str) :
    rewrite_env_yaml run_name (rewrite_env_yaml run_name s) =
      rewrite_env_yaml run_name s := by
  rcases rewrite_env_yaml_fix run_name s with h | h
  · exact rewrite_env_yaml_of_searchExact run_name _ h
  · rw [h]
    exact h

theorem no_nl_env (run_name : Str) (hr : '\n' ∉ run_name) :
    '\n' ∉ run_name ++ "_env".data := by
  intro h
  rcases List.mem_append.mp h with h | h
  · exact hr h
  · exact absurd h (by decide)

theorem filter_nameLine_pos (ls : List Str)
    (h : ls.any nameLine = true) : 0 < (ls.filter nameLine).length := by
  obtain ⟨x, hx, hp⟩ := List.any_eq_true.mp h
  exact List.length_pos.mpr
    (List.ne_nil_of_mem (List.mem_filter.mpr ⟨hx, hp⟩))

theorem filter_nameLine_nil (ls : List Str)
    (h : ls.any nameLine = false) : ls.filter nameLine = [] := by
  rw [List.filter_eq_nil_iff]
  intro a ha hp
  rw [List.any_eq_true.mpr ⟨a, ha, hp⟩] at h
  exact absurd h (by decide)

/-- C5 (amended): for every newline-free run identifier and every
environment spec text containing at most one name declaration line, the
materialization rewrite yields a spec with exactly one name declaration
line; when the input has none, the line declaring the run-scoped
environment name is prepended.  (An input with two or more name
declaration lines defeats the invariant: the substitution replaces all
of them, and an input that declares the run-scoped name on one line
keeps any further name lines untouched.) -/
theorem C5_single_name_decl (run_name s : Str) (hr : '\n' ∉ run_name)
    (h1 : name_decl_count s ≤ 1) :
    name_decl_count (rewrite_env_yaml run_name s) = 1 ∧
    (name_decl_count s = 0 →
      rewrite_env_yaml run_name s =
        nameRepl (run_name ++ "_env".data) ++ '\n' :: s) := by
  have henv := no_nl_env run_name hr
  rcases rewrite_env_yaml_cases run_name s with ⟨hs, hrw⟩ | ⟨hs, hcase⟩
  · have hany : (splitNl s).any nameLine = true :=
      searchNameAny_imp_any s
        (searchNameExact_imp_searchAny (run_name ++ "_env".data) s hs)
    have hpos := filter_nameLine_pos _ hany
    have hcount : name_decl_count s = 1 := by
      simp only [name_decl_count] at h1 ⊢
      omega
    rw [hrw]
    refine ⟨hcount, fun h0 => ?_⟩
    rw [hcount] at h0
    exact absurd h0 (by decide)
  · rcases hcase with ⟨h2, hrw⟩ | ⟨h2, hrw⟩
    · have hsplit : splitNl (subNameLines (run_name ++ "_env".data) s) =
          (splitNl s).map (substLine (run_name ++ "_env".data)) := by
        rw [subNameLines]
        apply splitNl_joinNl
        · intro hnil
          exact splitNl_ne_nil s (List.map_eq_nil_iff.mp hnil)
        · intro x hx
          obtain ⟨l, hl, rfl⟩ := List.mem_map.mp hx
          exact substLine_no_nl _ henv l (mem_splitNl_no_nl s l hl)
      have hcnt : name_decl_count
          (subNameLines (run_name ++ "_env".data) s) = name_decl_count s := by
        simp only [name_decl_count]
        rw [hsplit, count_substLine]
      have hany2 := searchNameAny_imp_any _ h2
      rw [hsplit] at hany2
      have hpos : 0 < ((splitNl s).filter nameLine).length := by
        have hp := filter_nameLine_pos _ hany2
        rwa [count_substLine] at hp
      have hcount : name_decl_count s = 1 := by
        simp only [name_decl_count] at h1 ⊢
        omega
      rw [hrw]
      refine ⟨by rw [hcnt, hcount], fun h0 => ?_⟩
      rw [hcount] at h0
      exact absurd h0 (by decide)
    · have hno : (splitNl s).any nameLine = false := by
        by_cases hx : (splitNl s).any nameLine = true
        · obtain ⟨ls1, ls2, hnonl, hmap⟩ :=
            subNameLines_map_decomp (run_name ++ "_env".data) s hx
          have htrue : searchNameAny
              (subNameLines (run_name ++ "_env".data) s) = true := by
            rw [subNameLines, hmap]
            exact searchNameAny_join (run_name ++ "_env".data) ls1 ls2 hnonl
          rw [htrue] at h2
          exact absurd h2 (by decide)
        · exact Bool.eq_false_iff.mpr hx
      have hid := subNameLines_id (run_name ++ "_env".data) s hno
      rw [hid] at hrw
      have hsplit2 : splitNl (nameRepl (run_name ++ "_env".data) ++
          '\n' :: s) = nameRepl (run_name ++ "_env".data) :: splitNl s :=
        splitNl_append_nl _ s (no_nl_nameRepl _ henv)
      constructor
      · rw [hrw]
        simp only [name_decl_count]
        rw [hsplit2]
        simp [List.filter_cons, nameLine_nameRepl,
          filter_nameLine_nil _ hno]
      · intro _
        exact hrw

/-- C5 witness: a spec with a single differently-named declaration is
rewritten to contain exactly one name declaration, and a spec with no
name declaration gets one prepended. -/
theorem C5_single_name_decl_witness :
    name_decl_count (rewrite_env_yaml "oneshot".data
      "name: other\ndependencies:".data) = 1 := by
  exact (C5_single_name_decl "oneshot".data
    "name: other\ndependencies:".data (by decide) (by decide)).1

/-- C5 counterexample: a spec text with two name declaration lines is
rewritten to a spec still containing two name declaration lines (the
substitution replaces every name line), refuting the claim that the
rewrite always yields exactly one name declaration. -/
theorem C5_counterexample :
    name_decl_count (rewrite_env_yaml "oneshot".data
      "name: a\nname: b".data) = 2 := by
  decide
